import Mathlib

/-!
Verification of the data-preparation, power-law-fitting and metric pipeline of
the btctcs bitcoin-treasury analysis repository, shallowly embedded in Lean.

Numeric cells of the dataframe are modelled as exact rationals; a missing
(NaN) cell is modelled as `none`.  Division following pandas semantics (which
yields positive or negative infinity or NaN instead of raising) is modelled
by the `PdVal` type.
-/

namespace Btctcs

/-! ## Data cleaner: `shared_utils/bitcoin_analysis.py`, `filter_and_deduplicate_data` -/

/-- One row of the record table as the data cleaner sees it.  A `none` field
models a missing (NaN) cell. -/
structure TreasuryRow where
  btc_balance : Option ℚ
  btc_per_diluted_share : Option ℚ
deriving DecidableEq

/-- A pandas comparison `col > 0` on a possibly missing cell (`NaN > 0` is
false, so the `notna()` conjuncts of the source filter are absorbed here). -/
def optPos : Option ℚ → Bool
  | some q => decide (0 < q)
  | none => false

/-- The row predicate of the source filter
`(btc_balance > 0) & (btc_per_diluted_share > 0) & notna & notna`. -/
def isValidRow (r : TreasuryRow) : Bool :=
  optPos r.btc_balance && optPos r.btc_per_diluted_share

/-- pandas `drop_duplicates(subset=[btc_balance], keep=first)`: keep a row iff
its `btc_balance` value has not occurred earlier in the list. -/
def dropDupFirst (seen : List (Option ℚ)) : List TreasuryRow → List TreasuryRow
  | [] => []
  | r :: rs =>
    if r.btc_balance ∈ seen then dropDupFirst seen rs
    else r :: dropDupFirst (r.btc_balance :: seen) rs

/-- Source `filter_and_deduplicate_data df = (valid_data, unique_data, duplicates)`. -/
def filter_and_deduplicate_data (df : List TreasuryRow) :
    List TreasuryRow × List TreasuryRow × ℕ :=
  let valid_data := df.filter isValidRow
  let unique_data := dropDupFirst [] valid_data
  (valid_data, unique_data, valid_data.length - unique_data.length)

/-- The validity invariant as the spec words it: `btc_balance > 0` and
`btc_per_diluted_share > 0` and neither is missing. -/
def SpecValidRow (r : TreasuryRow) : Prop :=
  (∃ b, r.btc_balance = some b ∧ 0 < b) ∧
  (∃ p, r.btc_per_diluted_share = some p ∧ 0 < p)

instance (r : TreasuryRow) : Decidable (SpecValidRow r) :=
  decidable_of_iff (isValidRow r = true) (by
    obtain ⟨b, p⟩ := r
    cases b <;> cases p <;> simp [isValidRow, optPos, SpecValidRow])

/-- The unique view as the spec words it: keep the first occurrence of each
distinct `btc_balance` value, deleting every later row carrying a value
already seen. -/
def specUnique : List TreasuryRow → List TreasuryRow
  | [] => []
  | r :: rs =>
    r :: specUnique (rs.filter (fun s => decide (s.btc_balance ≠ r.btc_balance)))
termination_by l => l.length
decreasing_by
  simp only [List.length_cons]
  exact Nat.lt_succ_of_le (List.length_filter_le _ _)

/-! ## Metric calculator: NAV, mNAV (create_mnav_chart) -/

/-- Division with pandas/numpy semantics: dividing by zero yields a signed
infinity or NaN value instead of raising an exception. -/
inductive PdVal where
  | num (q : ℚ)
  | posInf
  | negInf
  | nan
deriving DecidableEq

def pdDiv (a b : ℚ) : PdVal :=
  if b ≠ 0 then .num (a / b)
  else if 0 < a then .posInf
  else if a < 0 then .negInf
  else .nan

/-- One row of the table as the metric calculator sees it. -/
structure PriceRow where
  btc_balance : ℚ
  btc_prices : ℚ
  diluted_shares_outstanding : ℚ
  stock_prices : ℚ
deriving DecidableEq

/-- Column `nav = btc_balance * btc_prices`. -/
def nav (r : PriceRow) : ℚ := r.btc_balance * r.btc_prices

/-- Column `fully_diluted_market_cap = diluted_shares_outstanding * stock_prices`. -/
def fully_diluted_market_cap (r : PriceRow) : ℚ :=
  r.diluted_shares_outstanding * r.stock_prices

/-- Column `mnav = fully_diluted_market_cap / nav`, with pandas division semantics. -/
def mnav (r : PriceRow) : PdVal := pdDiv (fully_diluted_market_cap r) (nav r)

/-! ## Market-cap/NAV crossing (create_stacked_mc_btc_nav_chart) -/

/-- The backward scan `for i in range(len(df)-1, 0, -1)` of the source: return
the first index (scanning down from the argument) whose predecessor market cap
is below `navVal` while its own market cap is at or above it. -/
def findCrossingAux (mc : List ℚ) (navVal : ℚ) : ℕ → Option ℕ
  | 0 => none
  | i + 1 =>
    if mc.getD i 0 < navVal ∧ navVal ≤ mc.getD (i + 1) 0 then some (i + 1)
    else findCrossingAux mc navVal i

def findCrossingIdx (mc : List ℚ) (navVal : ℚ) : Option ℕ :=
  findCrossingAux mc navVal (mc.length - 1)

/-- The metric the chart reports: on success, days between the crossing row
and the last row, and the market cap at the crossing; when no crossing is
found the source falls back to `days_difference = 0`,
`intersection_market_cap = 0`. -/
def stackedChartMetrics (mc : List ℚ) (dates : List ℤ) (navVal : ℚ) : ℤ × ℚ :=
  match findCrossingIdx mc navVal with
  | some i => (dates.getD (dates.length - 1) 0 - dates.getD i 0, mc.getD i 0)
  | none => (0, 0)

/-- The crossing condition at index `j`, bounds left open (the scan itself
only ever evaluates it for `1 ≤ j < length`). -/
def CrossCond (mc : List ℚ) (navVal : ℚ) (j : ℕ) : Prop :=
  mc.getD (j - 1) 0 < navVal ∧ navVal ≤ mc.getD j 0

/-- The upward-crossing condition as the spec words it: an index `i ≥ 1` with
`fully_diluted_market_cap[i-1] < current_nav <= fully_diluted_market_cap[i]`. -/
def IsUpwardCrossing (mc : List ℚ) (navVal : ℚ) (i : ℕ) : Prop :=
  1 ≤ i ∧ i < mc.length ∧ mc.getD (i - 1) 0 < navVal ∧ navVal ≤ mc.getD i 0

/-- The nearest-value scan of the `create_stacked_area_chart` variant in
`src/bitcoin_analysis.py`: pandas `idxmin` of `abs(mc - navVal)`, the first
index at minimal absolute difference, reported regardless of crossing
direction. -/
def idxminAbsDiff (mc : List ℚ) (navVal : ℚ) : ℕ :=
  let d := mc.map (fun v => |v - navVal|)
  (List.range d.length).foldl
    (fun best i => if d.getD i 0 < d.getD best 0 then i else best) 0

/-! ## Daily yield projection (create_stock_nav_chart) -/

/-- pandas `Series.diff().dropna()`: successive differences. -/
def diffs : List ℚ → List ℚ
  | a :: b :: t => (b - a) :: diffs (b :: t)
  | _ => []

/-- pandas `Series.mean()`: the mean of an empty series is NaN, modelled as
`none`. -/
def pdMean (l : List ℚ) : Option ℚ :=
  if l.isEmpty then none else some (l.sum / l.length)

/-- pandas `df.tail(n)`. -/
def tailN (n : ℕ) (l : List ℚ) : List ℚ := l.drop (l.length - n)

/-- The 30-day average daily bitcoin yield of `create_stock_nav_chart`,
including the source guard that falls back to the whole series when the tail
holds fewer than two rows. -/
def daily_btc_yield (balances : List ℚ) : Option ℚ :=
  let last_30_days := tailN 30 balances
  let window := if last_30_days.length < 2 then balances else last_30_days
  pdMean (diffs window)

/-- Projected balance for day `d` after the last observation:
`last_balance + daily_btc_yield * d`; a NaN yield propagates. -/
def projected_btc_balance (balances : List ℚ) (d : ℕ) : Option ℚ :=
  (daily_btc_yield balances).map (fun y => balances.getLast?.getD 0 + y * d)

/-- Projected NAV for day `d`, bitcoin price held constant at its last
observed value. -/
def projected_nav (balances : List ℚ) (lastPrice : ℚ) (d : ℕ) : Option ℚ :=
  (projected_btc_balance balances d).map (fun b => b * lastPrice)

/-! ## Power-law fitter: `perform_log_transformation`,
`fit_power_law_regression`, `calculate_statistics` -/

/-- Output of the regression step: sklearn slope and intercept and the
`r2_score` over the unique points; an undefined (NaN) score is `none`. -/
structure FitResult where
  slope : ℝ
  intercept : ℝ
  r_squared : Option ℝ

/-- sklearn `LinearRegression().fit` with one feature, followed by
`r2_score`: ordinary least squares on centred data.  When the centred
variance is zero (e.g. a single sample) the minimum-norm least-squares
solution sets the coefficient to zero.  `r2_score` is NaN (`none`) below two
samples; on zero total variance it is 1 for a perfect fit and 0 otherwise. -/
noncomputable def olsFit (pts : List (ℝ × ℝ)) : FitResult :=
  let n : ℝ := pts.length
  let xbar : ℝ := (pts.map Prod.fst).sum / n
  let ybar : ℝ := (pts.map Prod.snd).sum / n
  let sxx : ℝ := (pts.map (fun p => (p.1 - xbar) ^ 2)).sum
  let sxy : ℝ := (pts.map (fun p => (p.1 - xbar) * (p.2 - ybar))).sum
  let slope : ℝ := if sxx = 0 then 0 else sxy / sxx
  let intercept : ℝ := ybar - slope * xbar
  let ssRes : ℝ := (pts.map (fun p => (p.2 - (slope * p.1 + intercept)) ^ 2)).sum
  let ssTot : ℝ := (pts.map (fun p => (p.2 - ybar) ^ 2)).sum
  let r2 : Option ℝ :=
    if pts.length < 2 then none
    else if ssTot = 0 then (if ssRes = 0 then some 1 else some 0)
    else some (1 - ssRes / ssTot)
  ⟨slope, intercept, r2⟩

/-- The generic error of the numeric stack, the only failure the fitting path
can raise: numpy log of a non-positive value produces a non-finite array and
sklearn rejects non-finite input, as it rejects an empty array.  The source
defines no InsufficientDataError anywhere. -/
inductive PyError where
  | valueError
deriving DecidableEq

def isOkResult {ε α : Type _} : Except ε α → Bool
  | .ok _ => true
  | .error _ => false

/-- The fitting pipeline on the unique rows, given as
`(btc_balance, btc_per_diluted_share)` pairs: log-transform
(`perform_log_transformation`), then `fit_power_law_regression`. -/
noncomputable def fit_power_law (unique : List (ℚ × ℚ)) : Except PyError FitResult :=
  if unique.isEmpty then .error .valueError
  else if unique.any (fun p => decide (p.1 ≤ 0) || decide (p.2 ≤ 0)) then
    .error .valueError
  else
    .ok (olsFit (unique.map
      (fun p => (Real.logb 10 (p.1 : ℝ), Real.logb 10 (p.2 : ℝ)))))

/-- Source `a_coeff = 10 ** intercept` from `calculate_statistics`. -/
noncomputable def a_coeff (intercept : ℝ) : ℝ := (10 : ℝ) ^ intercept

/-! ## Spreadsheet date conversion (shared_utils/google_sheets.py) -/

/-- Day count of a proleptic Gregorian calendar date relative to 1970-01-01,
the correspondence underlying Python `datetime` ordinals (shifted). -/
def daysFromCivil (y m d : ℤ) : ℤ :=
  let y' : ℤ := if m ≤ 2 then y - 1 else y
  let era : ℤ := Int.fdiv y' 400
  let yoe : ℤ := y' - era * 400
  let mp : ℤ := if 2 < m then m - 3 else m + 9
  let doy : ℤ := Int.fdiv (153 * mp + 2) 5 + d - 1
  let doe : ℤ := yoe * 365 + Int.fdiv yoe 4 - Int.fdiv yoe 100 + doy
  era * 146097 + doe - 719468

/-- Rendering of a day count back as a `(year, month, day)` civil date. -/
def civilFromDays (z : ℤ) : ℤ × ℤ × ℤ :=
  let z' : ℤ := z + 719468
  let era : ℤ := Int.fdiv z' 146097
  let doe : ℤ := z' - era * 146097
  let yoe : ℤ :=
    Int.fdiv (doe - Int.fdiv doe 1460 + Int.fdiv doe 36524 - Int.fdiv doe 146096) 365
  let y : ℤ := yoe + era * 400
  let doy : ℤ := doe - (365 * yoe + Int.fdiv yoe 4 - Int.fdiv yoe 100)
  let mp : ℤ := Int.fdiv (5 * doy + 2) 153
  let d : ℤ := doy - Int.fdiv (153 * mp + 2) 5 + 1
  let m : ℤ := if mp < 10 then mp + 3 else mp - 9
  (if m ≤ 2 then y + 1 else y, m, d)

/-- Source `convert_google_sheets_date`: for a positive numeric serial, the datetime
`1899-12-30 + timedelta(days=serial)` as a (possibly fractional) day count;
`None` otherwise. -/
def convert_google_sheets_date (serial : ℚ) : Option ℚ :=
  if 0 < serial then some ((daysFromCivil 1899 12 30 : ℚ) + serial) else none

/-! ## Sheet loader (load_bitcoin_data_from_sheet) -/

/-- Presence flags for the two optional source columns. -/
structure SheetConfig where
  hasBtcPerShare : Bool
  hasBtcPrice : Bool
deriving DecidableEq

/-- A raw sheet row after `pd.to_numeric(errors=coerce)` on each mapped
column: an unparseable cell is NaN (`none`). -/
structure SheetRow where
  date : Option ℚ
  btc_balance : Option ℚ
  diluted_shares_outstanding : Option ℚ
  stock_price : Option ℚ
  btc_per_share : Option ℚ
  btc_price : Option ℚ
deriving DecidableEq

/-- A dataframe row of the loader output, under canonical column names. -/
structure DataRow where
  date : Option ℚ
  btc_balance : Option ℚ
  diluted_shares_outstanding : Option ℚ
  stock_prices : Option ℚ
  btc_per_diluted_share : Option PdVal
  btc_prices : Option ℚ
deriving DecidableEq

/-- Date conversion and column renaming applied to one raw row. -/
def convertRow (r : SheetRow) : DataRow :=
  { date := r.date.bind convert_google_sheets_date
    btc_balance := r.btc_balance
    diluted_shares_outstanding := r.diluted_shares_outstanding
    stock_prices := r.stock_price
    btc_per_diluted_share := r.btc_per_share.map PdVal.num
    btc_prices := r.btc_price }

/-- The `df.dropna(subset=required_numeric_columns)` row predicate. -/
def requiredOk (cfg : SheetConfig) (r : DataRow) : Bool :=
  r.date.isSome && r.btc_balance.isSome &&
    r.diluted_shares_outstanding.isSome && r.stock_prices.isSome &&
    (!cfg.hasBtcPerShare || r.btc_per_diluted_share.isSome) &&
    (!cfg.hasBtcPrice || r.btc_prices.isSome)

/-- Element-wise pandas division of the balance and share columns. -/
def pdDivOpt : Option ℚ → Option ℚ → PdVal
  | some a, some b => pdDiv a b
  | _, _ => PdVal.nan

/-- The derived-column step: compute `btc_per_diluted_share` only when no
precomputed column was supplied. -/
def addDerived (cfg : SheetConfig) (r : DataRow) : DataRow :=
  if cfg.hasBtcPerShare then r
  else
    { r with
      btc_per_diluted_share :=
        some (pdDivOpt r.btc_balance r.diluted_shares_outstanding) }

/-- The `df.sort_values(date)` comparison. -/
def dateLE (a b : DataRow) : Prop := a.date.getD 0 ≤ b.date.getD 0

instance : DecidableRel dateLE := fun a b =>
  inferInstanceAs (Decidable (a.date.getD 0 ≤ b.date.getD 0))

instance : IsTotal DataRow dateLE := ⟨fun _ _ => le_total _ _⟩

instance : IsTrans DataRow dateLE := ⟨fun _ _ _ => le_trans⟩

inductive LoadError where
  | noData
  | noValidRows
deriving DecidableEq

/-- Concrete single-row sheet used to exercise the loader. -/
def sampleSheetRow : SheetRow :=
  ⟨some 1, some 2, some 3, some 4, none, none⟩

/-- The loader output expected for `sampleSheetRow` with both optional
columns absent. -/
def sampleDataRow : DataRow :=
  ⟨some (-25568), some 2, some 3, some 4, some (PdVal.num (2 / 3)), none⟩

/-- Source `load_bitcoin_data_from_sheet` after the schema check: convert data
types, drop rows with missing required values (raising when none remain),
sort by date, and derive `btc_per_diluted_share` when not supplied. -/
def load_bitcoin_data_from_sheet (cfg : SheetConfig) (rows : List SheetRow) :
    Except LoadError (List DataRow) :=
  if rows.isEmpty then .error .noData
  else
    let kept := (rows.map convertRow).filter (requiredOk cfg)
    if kept.isEmpty then .error .noValidRows
    else .ok ((List.insertionSort dateLE kept).map (addDerived cfg))

/-! ## Theorems about the cleaner -/

theorem isValidRow_iff (r : TreasuryRow) : isValidRow r = true ↔ SpecValidRow r := by
  obtain ⟨b, p⟩ := r
  cases b <;> cases p <;> simp [isValidRow, optPos, SpecValidRow]

theorem isValidRow_eq_decide (r : TreasuryRow) :
    isValidRow r = decide (SpecValidRow r) := by
  by_cases h : SpecValidRow r
  · simp [h, (isValidRow_iff r).mpr h]
  · rw [decide_eq_false h]
    cases hb : isValidRow r
    · rfl
    · exact absurd ((isValidRow_iff r).mp hb) h

theorem dropDupFirst_eq_specUnique (l : List TreasuryRow) (seen : List (Option ℚ)) :
    dropDupFirst seen l =
      specUnique (l.filter (fun r => decide (r.btc_balance ∉ seen))) := by
  induction l generalizing seen with
  | nil => simp [dropDupFirst, specUnique]
  | cons r rs ih =>
    by_cases h : r.btc_balance ∈ seen
    · rw [show dropDupFirst seen (r :: rs) = dropDupFirst seen rs by
        simp [dropDupFirst, h]]
      rw [ih seen]
      congr 1
      simp [List.filter_cons, h]
    · rw [show dropDupFirst seen (r :: rs) =
          r :: dropDupFirst (r.btc_balance :: seen) rs by simp [dropDupFirst, h]]
      rw [ih (r.btc_balance :: seen)]
      rw [show (r :: rs).filter (fun s => decide (s.btc_balance ∉ seen)) =
          r :: rs.filter (fun s => decide (s.btc_balance ∉ seen)) by
        simp [List.filter_cons, h]]
      rw [specUnique, List.filter_filter]
      refine congrArg (fun l => r :: specUnique l) (List.filter_congr ?_)
      intro s _
      cases hq : decide (s.btc_balance = r.btc_balance) <;>
        cases hm : decide (s.btc_balance ∈ seen) <;>
        simp_all [List.mem_cons]

theorem dropDupFirst_sublist (seen : List (Option ℚ)) (l : List TreasuryRow) :
    (dropDupFirst seen l).Sublist l := by
  induction l generalizing seen with
  | nil => simp [dropDupFirst]
  | cons r rs ih =>
    by_cases h : r.btc_balance ∈ seen
    · simp only [dropDupFirst, if_pos h]
      exact (ih seen).cons r
    · simp only [dropDupFirst, if_neg h]
      exact (ih (r.btc_balance :: seen)).cons₂ r

theorem dropDupFirst_keys (seen : List (Option ℚ)) (l : List TreasuryRow) :
    ((dropDupFirst seen l).map (fun r => r.btc_balance)).Nodup ∧
      ∀ k ∈ (dropDupFirst seen l).map (fun r => r.btc_balance), k ∉ seen := by
  induction l generalizing seen with
  | nil => simp [dropDupFirst]
  | cons r rs ih =>
    by_cases h : r.btc_balance ∈ seen
    · simpa only [dropDupFirst, if_pos h] using ih seen
    · simp only [dropDupFirst, if_neg h, List.map_cons, List.nodup_cons,
        List.mem_cons]
      obtain ⟨hnd, hseen⟩ := ih (r.btc_balance :: seen)
      refine ⟨⟨fun hc => ?_, hnd⟩, ?_⟩
      · exact (hseen _ hc) (List.mem_cons_self _ _)
      · rintro k (rfl | hk)
        · exact h
        · exact fun hks => (hseen k hk) (List.mem_cons_of_mem _ hks)

theorem dropDupFirst_eq_self (seen : List (Option ℚ)) (l : List TreasuryRow)
    (hnd : (l.map (fun r => r.btc_balance)).Nodup)
    (hseen : ∀ k ∈ l.map (fun r => r.btc_balance), k ∉ seen) :
    dropDupFirst seen l = l := by
  induction l generalizing seen with
  | nil => simp [dropDupFirst]
  | cons r rs ih =>
    simp only [List.map_cons, List.nodup_cons, List.mem_cons] at hnd hseen
    have h : r.btc_balance ∉ seen := hseen r.btc_balance (Or.inl rfl)
    simp only [dropDupFirst, if_neg h]
    congr 1
    refine ih (r.btc_balance :: seen) hnd.2 ?_
    intro k hk
    simp only [List.mem_cons, not_or]
    exact ⟨fun hc => hnd.1 (hc ▸ hk), hseen k (Or.inr hk)⟩

/-- C1: `filter_and_deduplicate_data` returns `(valid, unique, duplicate_count)`
where `valid` is the order-preserving subsequence of exactly the rows with
`btc_balance > 0` and `btc_per_diluted_share > 0` and neither missing,
`unique` keeps the first occurrence of each distinct `btc_balance` value of
`valid` in order, and `duplicate_count = len valid - len unique`. -/
theorem filter_and_deduplicate_data_correct (df : List TreasuryRow) :
    (filter_and_deduplicate_data df).1 =
        df.filter (fun r => decide (SpecValidRow r)) ∧
    (filter_and_deduplicate_data df).1.Sublist df ∧
    (filter_and_deduplicate_data df).2.1 =
        specUnique (filter_and_deduplicate_data df).1 ∧
    (filter_and_deduplicate_data df).2.1.Sublist (filter_and_deduplicate_data df).1 ∧
    (filter_and_deduplicate_data df).2.1.length ≤ (filter_and_deduplicate_data df).1.length ∧
    (filter_and_deduplicate_data df).2.2 =
      (filter_and_deduplicate_data df).1.length -
        (filter_and_deduplicate_data df).2.1.length := by
  refine ⟨?_, ?_, ?_, ?_, ?_, rfl⟩
  · simp only [filter_and_deduplicate_data]
    exact List.filter_congr fun a _ => isValidRow_eq_decide a
  · exact List.filter_sublist df
  · show dropDupFirst [] (df.filter isValidRow) = specUnique (df.filter isValidRow)
    rw [dropDupFirst_eq_specUnique]
    congr 1
    simp
  · exact dropDupFirst_sublist [] _
  · exact (dropDupFirst_sublist [] _).length_le

/-- C8: running the cleaner on the `unique` output of a previous clean returns
that same list as both `valid` and `unique`, with zero duplicates. -/
theorem filter_and_deduplicate_data_idempotent (df : List TreasuryRow) :
    filter_and_deduplicate_data ((filter_and_deduplicate_data df).2.1) =
      ((filter_and_deduplicate_data df).2.1,
        (filter_and_deduplicate_data df).2.1, 0) := by
  set u := (filter_and_deduplicate_data df).2.1 with hu
  have humem : ∀ r ∈ u, isValidRow r = true := by
    intro r hr
    have hsub : u.Sublist (df.filter isValidRow) := dropDupFirst_sublist [] _
    exact List.of_mem_filter (hsub.subset hr)
  have hfilter : u.filter isValidRow = u := List.filter_eq_self.mpr humem
  have hkeys := dropDupFirst_keys [] (df.filter isValidRow)
  have hdedup : dropDupFirst [] u = u := by
    refine dropDupFirst_eq_self [] u ?_ ?_
    · exact hkeys.1
    · intro k _
      simp
  show (u.filter isValidRow, dropDupFirst [] (u.filter isValidRow),
      (u.filter isValidRow).length - (dropDupFirst [] (u.filter isValidRow)).length)
    = (u, u, 0)
  rw [hfilter, hdedup, Nat.sub_self]

/-! ## Theorems about the metric calculator -/

/-- C7: for every row, `mnav = (diluted_shares_outstanding * stock_prices) /
(btc_balance * btc_prices)`, and when `nav = 0` the pandas division yields a
guarded infinite/undefined value rather than raising. -/
theorem mnav_guarded (r : PriceRow) :
    (nav r ≠ 0 →
      mnav r = PdVal.num ((r.diluted_shares_outstanding * r.stock_prices) /
        (r.btc_balance * r.btc_prices))) ∧
    (nav r = 0 →
      mnav r = PdVal.posInf ∨ mnav r = PdVal.negInf ∨ mnav r = PdVal.nan) := by
  constructor
  · intro h
    rw [mnav, pdDiv, if_pos h, fully_diluted_market_cap, nav]
  · intro h
    simp only [mnav, pdDiv, h, ne_eq, not_true_eq_false, if_false]
    by_cases h1 : 0 < fully_diluted_market_cap r
    · simp [h1]
    · by_cases h2 : fully_diluted_market_cap r < 0 <;> simp [h1, h2]

theorem mnav_guarded_witness :
    mnav ⟨0, 5, 2, 3⟩ = PdVal.posInf ∨ mnav ⟨0, 5, 2, 3⟩ = PdVal.negInf ∨
      mnav ⟨0, 5, 2, 3⟩ = PdVal.nan :=
  (mnav_guarded ⟨0, 5, 2, 3⟩).2 (by norm_num [nav])

/-! ## Theorems about the crossing scan -/

theorem findCrossingAux_some_iff (mc : List ℚ) (navVal : ℚ) (n i : ℕ) :
    findCrossingAux mc navVal n = some i ↔
      1 ≤ i ∧ i ≤ n ∧ CrossCond mc navVal i ∧
        ∀ j, i < j → j ≤ n → ¬ CrossCond mc navVal j := by
  induction n with
  | zero =>
    simp only [findCrossingAux]
    constructor
    · intro h; cases h
    · rintro ⟨h1, h2, -⟩; omega
  | succ k ih =>
    simp only [findCrossingAux]
    by_cases hc : mc.getD k 0 < navVal ∧ navVal ≤ mc.getD (k + 1) 0
    · rw [if_pos hc]
      have hck : CrossCond mc navVal (k + 1) := by
        simpa [CrossCond] using hc
      constructor
      · intro h
        injection h with h
        subst h
        refine ⟨Nat.succ_le_succ (Nat.zero_le k), le_refl _, hck, ?_⟩
        intro j hj1 hj2 _
        omega
      · rintro ⟨h1, h2, hcc, hmax⟩
        by_cases heq : i = k + 1
        · subst heq; rfl
        · exact absurd hck (hmax (k + 1) (by omega) (le_refl _))
    · rw [if_neg hc]
      rw [ih]
      have hck : ¬ CrossCond mc navVal (k + 1) := by
        simpa [CrossCond] using hc
      constructor
      · rintro ⟨h1, h2, hcc, hmax⟩
        refine ⟨h1, by omega, hcc, ?_⟩
        intro j hj1 hj2
        rcases Nat.lt_or_ge j (k + 1) with hj | hj
        · exact hmax j hj1 (by omega)
        · have hjk : j = k + 1 := by omega
          subst hjk; exact hck
      · rintro ⟨h1, h2, hcc, hmax⟩
        have hik : i ≤ k := by
          rcases Nat.lt_or_ge i (k + 1) with h | h
          · omega
          · have hi : i = k + 1 := by omega
            subst hi; exact absurd hcc hck
        exact ⟨h1, hik, hcc, fun j hj1 hj2 => hmax j hj1 (by omega)⟩

theorem findCrossingIdx_some_iff (mc : List ℚ) (navVal : ℚ) (i : ℕ) :
    findCrossingIdx mc navVal = some i ↔
      IsUpwardCrossing mc navVal i ∧
        ∀ j, IsUpwardCrossing mc navVal j → j ≤ i := by
  rw [findCrossingIdx, findCrossingAux_some_iff]
  constructor
  · rintro ⟨h1, h2, hcc, hmax⟩
    have hlen : i < mc.length := by omega
    refine ⟨⟨h1, hlen, hcc.1, hcc.2⟩, ?_⟩
    rintro j ⟨hj1, hj2, hjc1, hjc2⟩
    by_contra hji
    push_neg at hji
    exact hmax j hji (by omega) ⟨hjc1, hjc2⟩
  · rintro ⟨⟨h1, h2, hcc1, hcc2⟩, hmax⟩
    refine ⟨h1, by omega, ⟨hcc1, hcc2⟩, ?_⟩
    intro j hj1 hj2 hjc
    have hle : j ≤ i := hmax j ⟨by omega, by omega, hjc.1, hjc.2⟩
    omega

/-- C4: the scan finds the most recent (greatest) index `i ≥ 1` with
`fully_diluted_market_cap[i-1] < current_nav <= fully_diluted_market_cap[i]`
and reports `days_difference = date[last] - date[i]`; for market caps
`[10, 20, 30, 40]` and `current_nav = 25` the crossing index is `2` and the
days difference is `d3 - d2`. -/
theorem crossing_scan_correct :
    (∀ (mc : List ℚ) (navVal : ℚ) (i : ℕ),
        findCrossingIdx mc navVal = some i ↔
          IsUpwardCrossing mc navVal i ∧
            ∀ j, IsUpwardCrossing mc navVal j → j ≤ i) ∧
    (∀ (mc : List ℚ) (dates : List ℤ) (navVal : ℚ) (i : ℕ),
        findCrossingIdx mc navVal = some i →
          stackedChartMetrics mc dates navVal =
            (dates.getD (dates.length - 1) 0 - dates.getD i 0, mc.getD i 0)) ∧
    (∀ d0 d1 d2 d3 : ℤ,
        findCrossingIdx [10, 20, 30, 40] 25 = some 2 ∧
          stackedChartMetrics [10, 20, 30, 40] [d0, d1, d2, d3] 25 =
            (d3 - d2, 30)) := by
  refine ⟨findCrossingIdx_some_iff, ?_, ?_⟩
  · intro mc dates navVal i h
    simp [stackedChartMetrics, h]
  · intro d0 d1 d2 d3
    have h2 : findCrossingIdx [10, 20, 30, 40] 25 = some 2 := by decide
    refine ⟨h2, ?_⟩
    simp [stackedChartMetrics, h2, List.getD_cons_succ, List.getD_cons_zero]

theorem crossing_scan_correct_witness :
    stackedChartMetrics [10, 20, 30, 40] [0, 7, 14, 30] 25 = (16, 30) := by
  have h := (crossing_scan_correct.2.2 0 7 14 30).2
  norm_num at h
  exact h

/-- C5: on a table with no upward crossing the shared-utils chart falls back
to the zero-filled placeholder `days_difference = 0`,
`intersection_market_cap = 0`, and the `src/bitcoin_analysis.py` variant
substitutes the nearest market-cap index (here index 1) regardless of
crossing direction. -/
theorem crossing_not_found_placeholder :
    findCrossingIdx [40, 30, 20, 10] 25 = none ∧
    stackedChartMetrics [40, 30, 20, 10] [0, 1, 2, 3] 25 = (0, 0) ∧
    idxminAbsDiff [40, 30, 20, 10] 25 = 1 := by
  have hnone : findCrossingIdx [40, 30, 20, 10] 25 = none := by decide
  refine ⟨hnone, ?_, ?_⟩
  · rw [stackedChartMetrics, hnone]
  · have hd : [(40 : ℚ), 30, 20, 10].map (fun v => |v - 25|) =
        [15, 5, 5, 15] := by norm_num
    rw [idxminAbsDiff]
    simp only [hd]
    norm_num [List.range_succ, List.getD, List.get?]

/-! ## Theorems about the power-law fitter -/

theorem logb_ten_hundred : Real.logb 10 (100 : ℝ) = 2 := by
  rw [show (100 : ℝ) = 10 ^ (2 : ℕ) by norm_num, Real.logb_pow,
    Real.logb_self_eq_one (by norm_num)]
  norm_num

theorem logb_ten_thousand : Real.logb 10 (1000 : ℝ) = 3 := by
  rw [show (1000 : ℝ) = 10 ^ (3 : ℕ) by norm_num, Real.logb_pow,
    Real.logb_self_eq_one (by norm_num)]
  norm_num

theorem logb_ten_inv_thousand : Real.logb 10 ((1 : ℝ) / 1000) = -3 := by
  rw [show (1 : ℝ) / 1000 = (1000 : ℝ)⁻¹ by norm_num, Real.logb_inv,
    logb_ten_thousand]

theorem logb_ten_inv_hundred : Real.logb 10 ((1 : ℝ) / 100) = -2 := by
  rw [show (1 : ℝ) / 100 = (100 : ℝ)⁻¹ by norm_num, Real.logb_inv,
    logb_ten_hundred]

/-- C2: the fitting path raises only the numeric stack's generic error, and
only for an empty unique set or a non-positive input value; a singleton with
positive values is fitted without any error, contradicting the claimed
`InsufficientDataError` on fewer than two rows. -/
theorem fit_power_law_error_behaviour :
    fit_power_law [] = .error .valueError ∧
    isOkResult (fit_power_law [(100, 1 / 1000)]) = true ∧
    fit_power_law [(-1, 5)] = .error .valueError ∧
    (∀ unique : List (ℚ × ℚ),
      fit_power_law unique = .error .valueError ↔
        unique = [] ∨ ∃ p ∈ unique, p.1 ≤ 0 ∨ p.2 ≤ 0) := by
  refine ⟨rfl, ?_, ?_, ?_⟩
  · rw [fit_power_law, if_neg (by simp), if_neg (by norm_num)]
    rfl
  · rw [fit_power_law, if_neg (by simp), if_pos (by norm_num)]
  · intro unique
    rw [fit_power_law]
    by_cases h1 : unique.isEmpty
    · simp [h1, List.isEmpty_iff.mp h1]
    · rw [if_neg h1]
      by_cases h2 : unique.any (fun p => decide (p.1 ≤ 0) || decide (p.2 ≤ 0))
      · rw [if_pos h2]
        simp only [List.any_eq_true, Bool.or_eq_true, decide_eq_true_eq] at h2
        simpa using Or.inr h2
      · rw [if_neg h2]
        simp only [List.any_eq_true, Bool.or_eq_true, decide_eq_true_eq] at h2
        push_neg at h2
        constructor
        · intro h; cases h
        · rintro (rfl | ⟨p, hp, hple⟩)
          · simp at h1
          · exact absurd hple (by simpa using h2 p hp)

/-- C3: on the two-row unique set `[(100, 0.001), (1000, 0.01)]` the fit
returns `slope = 1`, `a_coeff = 1e-5` within `1e-9`, and `r_squared = 1`. -/
theorem fit_power_law_concrete :
    ∃ f : FitResult,
      fit_power_law [(100, 1 / 1000), (1000, 1 / 100)] = .ok f ∧
      f.slope = 1 ∧
      |a_coeff f.intercept - 1 / 100000| ≤ 1 / 1000000000 ∧
      f.r_squared = some 1 := by
  have hmap : ([((100 : ℚ), (1 / 1000 : ℚ)), ((1000 : ℚ), (1 / 100 : ℚ))].map
      (fun p => (Real.logb 10 (p.1 : ℝ), Real.logb 10 (p.2 : ℝ)))) =
      [((2 : ℝ), (-3 : ℝ)), ((3 : ℝ), (-2 : ℝ))] := by
    simp only [List.map_cons, List.map_nil]
    rw [show (((100 : ℚ) : ℝ)) = (100 : ℝ) by norm_num,
      show (((1000 : ℚ) : ℝ)) = (1000 : ℝ) by norm_num,
      show (((1 / 1000 : ℚ) : ℝ)) = (1 : ℝ) / 1000 by norm_num,
      show (((1 / 100 : ℚ) : ℝ)) = (1 : ℝ) / 100 by norm_num,
      logb_ten_hundred, logb_ten_thousand, logb_ten_inv_thousand,
      logb_ten_inv_hundred]
  have hfit : olsFit [((2 : ℝ), (-3 : ℝ)), ((3 : ℝ), (-2 : ℝ))] =
      ⟨1, -5, some 1⟩ := by
    rw [olsFit]
    norm_num
  have hok : fit_power_law [(100, 1 / 1000), (1000, 1 / 100)] =
      .ok ⟨1, -5, some 1⟩ := by
    rw [fit_power_law, if_neg (by simp), if_neg (by norm_num), hmap, hfit]
  refine ⟨⟨1, -5, some 1⟩, hok, rfl, ?_, rfl⟩
  have hcoeff : a_coeff (-5) = 1 / 100000 := by
    rw [a_coeff, show ((-5 : ℝ)) = ((-5 : ℤ) : ℝ) by norm_num,
      Real.rpow_intCast]
    norm_num
  rw [hcoeff]
  norm_num

/-! ## Theorems about the projection -/

/-- C6: on a single-row table the 30-day yield is the mean of an empty
difference series, i.e. NaN, and the NaN propagates into every projected
balance and projected NAV instead of being treated as zero yield. -/
theorem single_row_projection_nan (b lastPrice : ℚ) (d : ℕ) :
    daily_btc_yield [b] = none ∧
    projected_btc_balance [b] d = none ∧
    projected_nav [b] lastPrice d = none := by
  refine ⟨?_, ?_, ?_⟩ <;>
    simp [daily_btc_yield, tailN, diffs, pdMean, projected_btc_balance,
      projected_nav]

/-! ## Theorems about the date conversion -/

/-- C9 counterexample: serial 0, the epoch day itself, converts to None
rather than to the calendar date 1899-12-30. -/
theorem convert_google_sheets_date_zero :
    convert_google_sheets_date 0 = none := by
  simp [convert_google_sheets_date]

/-- C9 (amended): positive serials map to 1899-12-30 plus the serial, and
non-positive serials map to None.  The anchors pin the epoch down: the base
day count is 1899-12-30 (Unix day -25569), serial 2 renders as 1900-01-01
and serial 61 as 1900-03-01, the off-by-two compensation of the spreadsheet
leap-year quirk. -/
theorem convert_google_sheets_date_amended :
    (∀ serial : ℚ, 0 < serial →
      convert_google_sheets_date serial =
        some ((daysFromCivil 1899 12 30 : ℚ) + serial)) ∧
    (∀ serial : ℚ, serial ≤ 0 → convert_google_sheets_date serial = none) ∧
    daysFromCivil 1899 12 30 = -25569 ∧
    civilFromDays (daysFromCivil 1899 12 30 + 1) = (1899, 12, 31) ∧
    civilFromDays (daysFromCivil 1899 12 30 + 2) = (1900, 1, 1) ∧
    civilFromDays (daysFromCivil 1899 12 30 + 61) = (1900, 3, 1) := by
  refine ⟨?_, ?_, by decide, by decide, by decide, by decide⟩
  · intro s hs
    rw [convert_google_sheets_date, if_pos hs]
  · intro s hs
    rw [convert_google_sheets_date, if_neg (not_lt.mpr hs)]

theorem convert_google_sheets_date_amended_witness :
    convert_google_sheets_date 1 =
      some ((daysFromCivil 1899 12 30 : ℚ) + 1) :=
  convert_google_sheets_date_amended.1 1 (by norm_num)

/-! ## Theorems about the sheet loader -/

theorem addDerived_preserves (cfg : SheetConfig) (r : DataRow) :
    (addDerived cfg r).date = r.date ∧
    (addDerived cfg r).btc_balance = r.btc_balance ∧
    (addDerived cfg r).diluted_shares_outstanding =
      r.diluted_shares_outstanding ∧
    (addDerived cfg r).stock_prices = r.stock_prices ∧
    (addDerived cfg r).btc_prices = r.btc_prices := by
  rw [addDerived]
  split <;> exact ⟨rfl, rfl, rfl, rfl, rfl⟩

/-- C10: every sheet the loader accepts yields a nonempty table sorted in
ascending date order, with no missing value in any required column, and with
`btc_per_diluted_share = btc_balance / diluted_shares_outstanding` whenever
no precomputed per-share column was supplied. -/
theorem load_bitcoin_data_invariants (cfg : SheetConfig) (rows : List SheetRow)
    (out : List DataRow)
    (h : load_bitcoin_data_from_sheet cfg rows = .ok out) :
    out ≠ [] ∧
    List.Sorted dateLE out ∧
    (∀ r ∈ out, r.date.isSome = true ∧ r.btc_balance.isSome = true ∧
      r.diluted_shares_outstanding.isSome = true ∧
      r.stock_prices.isSome = true ∧
      (cfg.hasBtcPerShare = true → r.btc_per_diluted_share.isSome = true) ∧
      (cfg.hasBtcPrice = true → r.btc_prices.isSome = true)) ∧
    (cfg.hasBtcPerShare = false → ∀ r ∈ out,
      r.btc_per_diluted_share =
        some (pdDivOpt r.btc_balance r.diluted_shares_outstanding)) := by
  rw [load_bitcoin_data_from_sheet] at h
  by_cases h1 : rows.isEmpty
  · rw [if_pos h1] at h; cases h
  · rw [if_neg h1] at h
    simp only [] at h
    by_cases h2 : ((rows.map convertRow).filter (requiredOk cfg)).isEmpty
    · rw [if_pos h2] at h; cases h
    · rw [if_neg h2] at h
      injection h with h
      subst h
      set kept := (rows.map convertRow).filter (requiredOk cfg) with hkept
      have hknil : kept ≠ [] := by
        intro hc
        rw [hc] at h2
        exact h2 rfl
      have hperm : List.Perm (List.insertionSort dateLE kept) kept :=
        List.perm_insertionSort dateLE kept
      refine ⟨?_, ?_, ?_, ?_⟩
      · intro hc
        rw [List.map_eq_nil_iff] at hc
        rw [hc] at hperm
        exact hknil hperm.nil_eq.symm
      · have hsorted : List.Sorted dateLE (List.insertionSort dateLE kept) :=
          List.sorted_insertionSort dateLE kept
        refine List.Pairwise.map _ ?_ hsorted
        intro a b hab
        show (addDerived cfg a).date.getD 0 ≤ (addDerived cfg b).date.getD 0
        rw [(addDerived_preserves cfg a).1, (addDerived_preserves cfg b).1]
        exact hab
      · intro r hr
        obtain ⟨r0, hr0, rfl⟩ := List.mem_map.mp hr
        have hmem : r0 ∈ kept := hperm.subset hr0
        have hok : requiredOk cfg r0 = true := List.of_mem_filter hmem
        simp only [requiredOk, Bool.and_eq_true, Bool.or_eq_true,
          Bool.not_eq_true'] at hok
        obtain ⟨⟨⟨⟨⟨hd, hb⟩, hs⟩, hp⟩, hbps⟩, hbp⟩ := hok
        obtain ⟨e1, e2, e3, e4, e5⟩ := addDerived_preserves cfg r0
        refine ⟨by rw [e1]; exact hd, by rw [e2]; exact hb,
          by rw [e3]; exact hs, by rw [e4]; exact hp, ?_, ?_⟩
        · intro hcfg
          have : (addDerived cfg r0) = r0 := by rw [addDerived, if_pos hcfg]
          rw [this]
          rcases hbps with hfalse | hsome
          · rw [hcfg] at hfalse; cases hfalse
          · exact hsome
        · intro hcfg
          rw [e5]
          rcases hbp with hfalse | hsome
          · rw [hcfg] at hfalse; cases hfalse
          · exact hsome
      · intro hcfg r hr
        obtain ⟨r0, hr0, rfl⟩ := List.mem_map.mp hr
        rw [addDerived, if_neg (by rw [hcfg]; exact Bool.false_ne_true)]

theorem load_bitcoin_data_invariants_witness :
    ([sampleDataRow] ≠ []) ∧
    List.Sorted dateLE [sampleDataRow] ∧
    (∀ r ∈ [sampleDataRow],
      r.date.isSome = true ∧ r.btc_balance.isSome = true ∧
      r.diluted_shares_outstanding.isSome = true ∧
      r.stock_prices.isSome = true ∧
      ((⟨false, false⟩ : SheetConfig).hasBtcPerShare = true →
        r.btc_per_diluted_share.isSome = true) ∧
      ((⟨false, false⟩ : SheetConfig).hasBtcPrice = true →
        r.btc_prices.isSome = true)) ∧
    ((⟨false, false⟩ : SheetConfig).hasBtcPerShare = false →
      ∀ r ∈ [sampleDataRow],
        r.btc_per_diluted_share =
          some (pdDivOpt r.btc_balance r.diluted_shares_outstanding)) :=
  load_bitcoin_data_invariants ⟨false, false⟩ [sampleSheetRow] [sampleDataRow]
    (by
      rw [load_bitcoin_data_from_sheet]
      have hday : daysFromCivil 1899 12 30 = -25569 := by decide
      have hconv : convert_google_sheets_date 1 = some (-25568) := by
        rw [convert_google_sheets_date, if_pos (by norm_num : (0 : ℚ) < 1),
          hday]
        norm_num
      rw [if_neg (by simp [sampleSheetRow])]
      simp only [sampleSheetRow, sampleDataRow, List.map_cons, List.map_nil,
        convertRow, Option.some_bind, hconv]
      norm_num [requiredOk, List.filter, addDerived, pdDivOpt, pdDiv])

end Btctcs
